import Mathlib

/-!
Shallow embedding of the security-validation and execution-result logic of
mcp-shell (`security.go`, `executor.go`), together with theorems settling the
spec claims about that logic.

Go strings are modelled as lists of runes (`List Char`); raw byte buffers as
lists of byte values (`List Nat`, each < 256 on real inputs).  Go functions
that consult the operating system (`regexp.MatchString` compilation,
`exec.LookPath`, `filepath.Abs`) are parametrised by an `Env` record of
oracles; everything else is translated directly from the Go source.
-/

namespace MCPShell

/-- Model of a Go string: its sequence of runes. -/
abbrev GoStr := List Char

/-- Model of a Go byte buffer: its sequence of byte values. -/
abbrev Bytes := List Nat

/-- Model of `unicode.IsSpace` restricted to the Latin-1 range (space, tab,
newline, vertical tab, form feed, carriage return, NEL, NBSP); White_Space
code points above U+00FF are not modelled. -/
def goIsSpace (c : Char) : Bool :=
  c == ' ' || c == '\t' || c == '\n' || c == (Char.ofNat 11) ||
  c == (Char.ofNat 12) || c == '\r' || c == (Char.ofNat 133) || c == (Char.ofNat 160)

/-- Model of `strings.TrimSpace`: drop leading and trailing whitespace runes. -/
def trimSpace (s : GoStr) : GoStr :=
  ((s.dropWhile goIsSpace).reverse.dropWhile goIsSpace).reverse

/-- Fuel-indexed worker for `fields`: with fuel at least the length of the
input (maintained because dropping characters never lengthens a list) it
splits around maximal runs of whitespace, producing no empty fields.  The
fuel makes the recursion structural, so that the function reduces inside the
kernel. -/
def fieldsFuel : Nat → GoStr → List GoStr
  | _, [] => []
  | 0, _ :: _ => []
  | fuel + 1, c :: rest =>
    if goIsSpace c then fieldsFuel fuel rest
    else (c :: rest.takeWhile (fun d => !goIsSpace d)) ::
      fieldsFuel fuel (rest.dropWhile (fun d => !goIsSpace d))

/-- Model of `strings.Fields`: split around maximal runs of whitespace,
producing no empty fields. -/
def fields (s : GoStr) : List GoStr := fieldsFuel s.length s

/-- Model of `strings.Contains s sub`: `sub` occurs as a contiguous substring
of `s`. -/
def goContains (s sub : GoStr) : Bool :=
  decide (sub <:+: s)

/-- The metacharacter set of `containsShellMetacharacters` in `security.go`:
the runes of the Go literal backslash-escaped string of pipe, ampersand,
semicolon, angle brackets, parentheses, braces, square brackets, dollar,
backtick and backslash. -/
def metachars : GoStr := "|&;<>()\x7b\x7d[]$`\\".data

/-- Model of `containsShellMetacharacters` (`security.go`): some rune of `s`
is a shell metacharacter. -/
def containsShellMetacharacters (s : GoStr) : Bool :=
  s.any (fun c => metachars.contains c)

/-- The `dangerous` slice of `containsDangerousShellConstructs` in
`security.go`. -/
def dangerousConstructs : List GoStr :=
  ["$(".data, "`".data, "$\x7b".data, "&&".data, "||".data, ";".data,
   "|".data, ">".data, "<".data, ">>".data, "<<".data, "&".data]

/-- Model of `containsDangerousShellConstructs` (`security.go`): some
dangerous construct occurs as a substring of `s`. -/
def containsDangerousShellConstructs (s : GoStr) : Bool :=
  dangerousConstructs.any (fun d => goContains s d)

/-- Model of `filepath.IsAbs` on Unix: the path starts with a slash. -/
def goIsAbs (p : GoStr) : Bool :=
  match p with
  | [] => false
  | c :: _ => c == '/'

/-- Model of `filepath.Base` on Unix: strip trailing slashes, then keep the
part after the last slash; empty path gives a dot, an all-slash path gives a
slash. -/
def goBase (p : GoStr) : GoStr :=
  if p = [] then ['.']
  else
    let q := (p.reverse.dropWhile (fun c => c == '/')).reverse
    if q = [] then ['/']
    else (q.reverse.takeWhile (fun c => !(c == '/'))).reverse

/-- Oracles for the operating-system-dependent calls made by the validator:
`matchString p s` models `regexp.MatchString` (`none` = compilation error,
`some b` = no error and match result `b`); `lookPathOk e` models whether
`exec.LookPath e` succeeds; `absPath e` models `filepath.Abs e` (`none` =
error). -/
structure Env where
  matchString : GoStr → GoStr → Option Bool
  lookPathOk : GoStr → Bool
  absPath : GoStr → Option GoStr

/-- The security configuration fields used by `security.go` and
`executor.go`.  The struct literal lives in `config.go`; the field set and
types are those referenced by the validator and executor. -/
structure SecurityConfig where
  enabled : Bool
  useShellExecution : Bool
  allowedExecutables : List GoStr
  allowedCommands : List GoStr
  blockedCommands : List GoStr
  blockedPatterns : List GoStr
  maxOutputSize : Int

/-- Model of `SecurityValidator.matchesExecutable` (`security.go`): exact
match, absolute-path match for absolute allowlist entries, or basename match
(for relative candidates) confirmed through the search path. -/
def matchesExecutable (env : Env) (executable pat : GoStr) : Bool :=
  if executable == pat then true
  else if goIsAbs pat then
    match env.absPath executable with
    | some absExec => absExec == pat
    | none => false
  else if !goIsAbs executable && goBase executable == pat then
    env.lookPathOk executable
  else false

/-- Model of `SecurityValidator.validateExecutableCommand` (`security.go`):
`none` means the command is allowed, `some msg` is the denial message. -/
def validateExecutableCommand (env : Env) (cfg : SecurityConfig)
    (command : GoStr) : Option GoStr :=
  let command := trimSpace command
  if command = [] then some "empty command".data
  else if containsShellMetacharacters command then
    some ("command contains shell metacharacters (not allowed in secure mode): ".data
      ++ command)
  else if containsDangerousShellConstructs command then
    some ("command contains dangerous shell constructs (not allowed in secure mode): ".data
      ++ command)
  else
    match fields command with
    | [] => some "no command found".data
    | executable :: _ =>
      if cfg.allowedExecutables.any (fun a => matchesExecutable env executable a) then
        none
      else
        some ("executable '".data ++ executable ++ "' not in allowed list".data)

/-- Model of `SecurityValidator.validateLegacyCommand` (`security.go`):
blocked-pattern regexes first (pattern errors skipped), then blocked
keywords as substrings, then the optional allowed-command prefix list. -/
def validateLegacyCommand (env : Env) (cfg : SecurityConfig)
    (command : GoStr) : Option GoStr :=
  match cfg.blockedPatterns.find? (fun p => env.matchString p command == some true) with
  | some p => some ("command matches blocked pattern: ".data ++ p)
  | none =>
    match cfg.blockedCommands.find? (fun b => goContains command b) with
    | some b => some ("command contains blocked keyword: ".data ++ b)
    | none =>
      if cfg.allowedCommands.length > 0 then
        if cfg.allowedCommands.any (fun a => a.isPrefixOf (trimSpace command)) then
          none
        else some "command not in allowed list".data
      else none

/-- Model of `SecurityValidator.validateCommand` (`security.go`): the
four-way dispatch on `enabled`, `useShellExecution` and the presence of
`allowedExecutables`. -/
def validateCommand (env : Env) (cfg : SecurityConfig) (command : GoStr) :
    Option GoStr :=
  if !cfg.enabled then none
  else if !cfg.useShellExecution && cfg.allowedExecutables.length > 0 then
    validateExecutableCommand env cfg command
  else if cfg.useShellExecution then
    validateLegacyCommand env cfg command
  else if cfg.allowedExecutables.length = 0 then
    some "no allowed executables configured - all commands blocked for security".data
  else validateExecutableCommand env cfg command

/-- Model of `CommandExecutor.parseCommand` (`executor.go`): trim, split on
whitespace, reject a metacharacter-bearing executable and any argument with a
dangerous construct. -/
def parseCommand (command : GoStr) : Except GoStr (GoStr × List GoStr) :=
  let command := trimSpace command
  if command = [] then .error "empty command".data
  else
    match fields command with
    | [] => .error "no command found".data
    | executable :: args =>
      if containsShellMetacharacters executable then
        .error ("executable contains shell metacharacters: ".data ++ executable)
      else
        match args.find? containsDangerousShellConstructs with
        | some arg =>
          .error ("argument contains dangerous shell constructs: ".data ++ arg)
        | none => .ok (executable, args)

/-- The standard base64 alphabet, as byte values. -/
def base64Alphabet : Bytes :=
  ("ABCDEFGHIJKLMNOPQRSTUVWXYZabcdefghijklmnopqrstuvwxyz0123456789+/").data.map Char.toNat

/-- One base64 digit: the alphabet byte for a six-bit value. -/
def b64digit (n : Nat) : Nat := base64Alphabet.getD n 0

/-- Model of `base64.StdEncoding.EncodeToString`: each three-byte group
becomes four alphabet bytes; a final one- or two-byte group is padded with
`=` (byte 61). -/
def base64Encode : Bytes → Bytes
  | [] => []
  | [b0] => [b64digit (b0 / 4), b64digit (b0 % 4 * 16), 61, 61]
  | [b0, b1] =>
    [b64digit (b0 / 4), b64digit (b0 % 4 * 16 + b1 / 16), b64digit (b1 % 16 * 4), 61]
  | b0 :: b1 :: b2 :: rest =>
    b64digit (b0 / 4) :: b64digit (b0 % 4 * 16 + b1 / 16) ::
      b64digit (b1 % 16 * 4 + b2 / 64) :: b64digit (b2 % 64) :: base64Encode rest

/-- Model of `strings.TrimRight(s, "\n")` applied to a byte buffer: drop the
maximal run of trailing newline bytes.  (A trailing 0x0A byte of a UTF-8
string is always a newline rune, so trimming runes and trimming bytes
agree.) -/
def goTrimRightNL (bs : Bytes) : Bytes :=
  (bs.reverse.dropWhile (fun b => b == 10)).reverse

/-- Outcome of `cmd.Run()` as far as the result assembly can observe it:
no error, a `*exec.ExitError` carrying the value of its `ExitCode()` method,
or any other error. -/
inductive ProcErr where
  | exitErr (code : Int)
  | otherErr
deriving DecidableEq

/-- Model of the `ExecutionResult` fields assembled by
`executeSecureCommand` (`executor.go`). -/
structure ExecutionResult where
  status : GoStr
  exitCode : Int
  stdout : Bytes
  stderr : Bytes
  command : GoStr
deriving DecidableEq

/-- Model of the tail of `CommandExecutor.executeSecureCommand`
(`executor.go`, after `cmd.Run()` returns): output-size enforcement on the
completed buffers, status and exit-code assembly, and text-vs-base64
rendering of both streams. -/
def finishSecureCommand (maxOutputSize : Int) (useBase64 : Bool)
    (stdoutBuf stderrBuf : Bytes) (runErr : Option ProcErr)
    (command : GoStr) : Except GoStr ExecutionResult :=
  if maxOutputSize > 0 ∧ (stdoutBuf.length : Int) > maxOutputSize then
    .error "stdout exceeds maximum size limit".data
  else if maxOutputSize > 0 ∧ (stderrBuf.length : Int) > maxOutputSize then
    .error "stderr exceeds maximum size limit".data
  else
    let statusExit : GoStr × Int :=
      match runErr with
      | none => ("success".data, 0)
      | some (.exitErr code) => ("error".data, code)
      | some .otherErr => ("error".data, -1)
    let stdout := if useBase64 then base64Encode stdoutBuf else goTrimRightNL stdoutBuf
    let stderr := if useBase64 then base64Encode stderrBuf else goTrimRightNL stderrBuf
    .ok { status := statusExit.1, exitCode := statusExit.2,
          stdout := stdout, stderr := stderr, command := command }

/-- Rendering of a stream as claimed by the spec sentence "trimmed of a
single trailing newline": remove one final newline byte when present.  This
definition follows the claim wording, to be compared with the code's
`goTrimRightNL`. -/
def trimSingleTrailingNewline (bs : Bytes) : Bytes :=
  if bs.getLast? = some 10 then bs.dropLast else bs

/-- Rendering of a stream with every trailing newline byte removed, defined
by structural recursion, independently of the code's reverse/dropWhile
formulation. -/
def trimTrailingNewlines : Bytes → Bytes
  | [] => []
  | b :: rest =>
    let r := trimTrailingNewlines rest
    if r = [] ∧ b = 10 then [] else b :: r

/-- Copy of `validateExecutableCommand` with the dangerous-shell-construct
check deleted; used to state that this check is semantically dead in
whole-command validation. -/
def validateExecutableCommandNoDangerCheck (env : Env) (cfg : SecurityConfig)
    (command : GoStr) : Option GoStr :=
  let command := trimSpace command
  if command = [] then some "empty command".data
  else if containsShellMetacharacters command then
    some ("command contains shell metacharacters (not allowed in secure mode): ".data
      ++ command)
  else
    match fields command with
    | [] => some "no command found".data
    | executable :: _ =>
      if cfg.allowedExecutables.any (fun a => matchesExecutable env executable a) then
        none
      else
        some ("executable '".data ++ executable ++ "' not in allowed list".data)

/-- A concrete environment for witness instances: every regex compiles and
matches nothing, no executable resolves through the search path, and
absolute-path resolution fails. -/
def testEnv : Env :=
  { matchString := fun _ _ => some false
    lookPathOk := fun _ => false
    absPath := fun _ => none }

/-- Dropping a prefix by a predicate keeps every element the predicate
rejects. -/
theorem mem_dropWhile_of_pred_false {p : Char → Bool} {c : Char} :
    ∀ {l : GoStr}, c ∈ l → p c = false → c ∈ l.dropWhile p := by
  intro l
  induction l with
  | nil => intro h _; cases h
  | cons a l ih =>
    intro hmem hpc
    rw [List.dropWhile_cons]
    by_cases ha : p a
    · simp only [ha, if_true]
      rcases List.mem_cons.mp hmem with rfl | hl
      · rw [hpc] at ha; cases ha
      · exact ih hl hpc
    · simp only [ha, if_false]
      exact hmem

/-- Trimming whitespace keeps every non-whitespace character. -/
theorem mem_trimSpace_of_not_space {c : Char} {s : GoStr} (hmem : c ∈ s)
    (hc : goIsSpace c = false) : c ∈ trimSpace s := by
  unfold trimSpace
  rw [List.mem_reverse]
  apply mem_dropWhile_of_pred_false _ hc
  rw [List.mem_reverse]
  exact mem_dropWhile_of_pred_false hmem hc

/-- Every field produced by the fuelled worker is a contiguous substring of
its input. -/
theorem fieldsFuel_substrings :
    ∀ (fuel : Nat) (l : GoStr), ∀ t ∈ fieldsFuel fuel l, t <:+: l := by
  intro fuel
  induction fuel with
  | zero =>
    intro l t ht
    cases l with
    | nil => cases ht
    | cons c rest => cases ht
  | succ fuel ih =>
    intro l t ht
    cases l with
    | nil => cases ht
    | cons c rest =>
      rw [fieldsFuel] at ht
      by_cases hsp : goIsSpace c
      · simp only [hsp, if_true] at ht
        exact (ih rest t ht).trans (List.suffix_cons c rest).isInfix
      · simp only [hsp, if_false] at ht
        rcases List.mem_cons.mp ht with rfl | hrest
        · refine List.IsPrefix.isInfix ⟨rest.dropWhile (fun d => !goIsSpace d), ?_⟩
          simp [List.takeWhile_append_dropWhile]
        · exact ((ih _ t hrest).trans (List.dropWhile_suffix _).isInfix).trans
            (List.suffix_cons c rest).isInfix

/-- Every field of a string is a contiguous substring of it. -/
theorem mem_fields_substring {s : GoStr} {t : GoStr} (ht : t ∈ fields s) :
    t <:+: s :=
  fieldsFuel_substrings s.length s t ht

/-- Characterisation of the substring test. -/
theorem goContains_iff {s sub : GoStr} : goContains s sub = true ↔ sub <:+: s :=
  decide_eq_true_iff

/-- A metacharacter inside a contiguous substring is inside the whole
string. -/
theorem meta_of_substring {t s : GoStr} (hinf : t <:+: s)
    (hm : containsShellMetacharacters t = true) :
    containsShellMetacharacters s = true := by
  rcases List.any_eq_true.mp hm with ⟨c, hc, hmc⟩
  exact List.any_eq_true.mpr ⟨c, hinf.subset hc, hmc⟩

/-- A dangerous construct inside a contiguous substring is inside the whole
string. -/
theorem dangerous_of_substring {t s : GoStr} (hinf : t <:+: s)
    (hd : containsDangerousShellConstructs t = true) :
    containsDangerousShellConstructs s = true := by
  rcases List.any_eq_true.mp hd with ⟨d, hdmem, hdt⟩
  exact List.any_eq_true.mpr
    ⟨d, hdmem, goContains_iff.mpr ((goContains_iff.mp hdt).trans hinf)⟩

/-- Every dangerous construct contains a shell metacharacter, so a string
containing a dangerous construct contains a metacharacter. -/
theorem dangerous_implies_meta {s : GoStr}
    (hd : containsDangerousShellConstructs s = true) :
    containsShellMetacharacters s = true := by
  rcases List.any_eq_true.mp hd with ⟨d, hdmem, hds⟩
  have hinf : d <:+: s := goContains_iff.mp hds
  have hall : containsShellMetacharacters d = true := by
    fin_cases hdmem <;> decide
  exact meta_of_substring hinf hall

/-- With security disabled the dispatcher allows unconditionally. -/
theorem validateCommand_disabled (env : Env) (cfg : SecurityConfig)
    (command : GoStr) (hen : cfg.enabled = false) :
    validateCommand env cfg command = none := by
  unfold validateCommand
  rw [hen]
  rfl

/-- With security enabled, shell execution off and a non-empty executable
allowlist, the dispatcher runs secure-mode validation. -/
theorem validateCommand_secure_mode (env : Env) (cfg : SecurityConfig)
    (command : GoStr) (hen : cfg.enabled = true)
    (hshell : cfg.useShellExecution = false)
    (hne : cfg.allowedExecutables ≠ []) :
    validateCommand env cfg command = validateExecutableCommand env cfg command := by
  have hlen : cfg.allowedExecutables.length > 0 := List.length_pos.mpr hne
  unfold validateCommand
  rw [hen, hshell]
  simp [hlen]

/-- With security enabled and shell execution on, the dispatcher runs
legacy-mode validation. -/
theorem validateCommand_legacy_mode (env : Env) (cfg : SecurityConfig)
    (command : GoStr) (hen : cfg.enabled = true)
    (hshell : cfg.useShellExecution = true) :
    validateCommand env cfg command = validateLegacyCommand env cfg command := by
  unfold validateCommand
  rw [hen, hshell]
  rfl

/-- With security enabled, shell execution off and an empty executable
allowlist, the dispatcher denies everything with a fixed message. -/
theorem validateCommand_no_allowlist (env : Env) (cfg : SecurityConfig)
    (command : GoStr) (hen : cfg.enabled = true)
    (hshell : cfg.useShellExecution = false)
    (hempty : cfg.allowedExecutables = []) :
    validateCommand env cfg command =
      some "no allowed executables configured - all commands blocked for security".data := by
  unfold validateCommand
  rw [hen, hshell, hempty]
  rfl

/-- Secure-mode validation of a command whose trimmed form contains a shell
metacharacter yields exactly the metacharacter denial message. -/
theorem validateExecutableCommand_meta_denies (env : Env) (cfg : SecurityConfig)
    (command : GoStr)
    (hm : containsShellMetacharacters (trimSpace command) = true) :
    validateExecutableCommand env cfg command =
      some ("command contains shell metacharacters (not allowed in secure mode): ".data
        ++ trimSpace command) := by
  have hne : ¬ trimSpace command = [] := by
    intro h
    rw [h] at hm
    simp [containsShellMetacharacters] at hm
  simp only [validateExecutableCommand]
  rw [if_neg hne, if_pos hm]

/-- C1: in secure mode (security enabled, shell execution off, non-empty
executable allowlist), any command containing one of the shell
metacharacters pipe, ampersand, semicolon, angle brackets, parentheses,
braces, square brackets, dollar, backtick or backslash is denied by
`validateCommand`, whatever the allowlist holds. -/
theorem C1_metachars_denied_in_secure_mode (env : Env) (cfg : SecurityConfig)
    (command : GoStr) (hen : cfg.enabled = true)
    (hshell : cfg.useShellExecution = false)
    (hne : cfg.allowedExecutables ≠ []) (c : Char)
    (hlist : c ∈ ['|', '&', ';', '<', '>', '(', ')', Char.ofNat 123,
      Char.ofNat 125, '[', ']', '$', Char.ofNat 96, '\\'])
    (hc : c ∈ command) :
    (validateCommand env cfg command).isSome = true := by
  rw [validateCommand_secure_mode env cfg command hen hshell hne]
  have hcsp : goIsSpace c = false := by fin_cases hlist <;> decide
  have hm : containsShellMetacharacters (trimSpace command) = true :=
    List.any_eq_true.mpr
      ⟨c, mem_trimSpace_of_not_space hc hcsp, by fin_cases hlist <;> decide⟩
  rw [validateExecutableCommand_meta_denies env cfg command hm]
  rfl

/-- Witness for C1 at the command of the letters l and s, a space, a pipe, a
space and the word cat, with allowlist containing exactly cat. -/
theorem C1_metachars_denied_in_secure_mode_witness :
    (validateCommand testEnv
      { enabled := true, useShellExecution := false,
        allowedExecutables := ["cat".data], allowedCommands := [],
        blockedCommands := [], blockedPatterns := [], maxOutputSize := 0 }
      "ls | cat".data).isSome = true :=
  C1_metachars_denied_in_secure_mode testEnv
    { enabled := true, useShellExecution := false,
      allowedExecutables := ["cat".data], allowedCommands := [],
      blockedCommands := [], blockedPatterns := [], maxOutputSize := 0 }
    "ls | cat".data rfl rfl (by decide) '|' (by decide) (by decide)

/-- C2: the dispatcher `validateCommand` implements the four-way dispatch:
disabled security allows everything; secure mode with a non-empty allowlist
runs secure-mode validation; shell-execution mode runs legacy validation;
and enabled security with shell execution off and an empty allowlist denies
every command with a message mentioning that no allowed executables are
configured. -/
theorem C2_validateCommand_dispatch (env : Env) (cfg : SecurityConfig)
    (command : GoStr) :
    (cfg.enabled = false → validateCommand env cfg command = none) ∧
    (cfg.enabled = true → cfg.useShellExecution = false →
      cfg.allowedExecutables ≠ [] →
      validateCommand env cfg command = validateExecutableCommand env cfg command) ∧
    (cfg.enabled = true → cfg.useShellExecution = true →
      validateCommand env cfg command = validateLegacyCommand env cfg command) ∧
    (cfg.enabled = true → cfg.useShellExecution = false →
      cfg.allowedExecutables = [] →
      validateCommand env cfg command =
        some "no allowed executables configured - all commands blocked for security".data ∧
      "no allowed executables configured".data <:+:
        "no allowed executables configured - all commands blocked for security".data) :=
  ⟨validateCommand_disabled env cfg command,
   validateCommand_secure_mode env cfg command,
   validateCommand_legacy_mode env cfg command,
   fun hen hshell hempty =>
     ⟨validateCommand_no_allowlist env cfg command hen hshell hempty, by decide⟩⟩

/-- Witness for C2: the disabled branch and the empty-allowlist branch at
concrete configurations and the two-letter command of l and s. -/
theorem C2_validateCommand_dispatch_witness :
    validateCommand testEnv
      { enabled := false, useShellExecution := false, allowedExecutables := [],
        allowedCommands := [], blockedCommands := [], blockedPatterns := [],
        maxOutputSize := 0 } "ls".data = none ∧
    validateCommand testEnv
      { enabled := true, useShellExecution := false, allowedExecutables := [],
        allowedCommands := [], blockedCommands := [], blockedPatterns := [],
        maxOutputSize := 0 } "ls".data =
      some "no allowed executables configured - all commands blocked for security".data :=
  ⟨(C2_validateCommand_dispatch testEnv
      { enabled := false, useShellExecution := false, allowedExecutables := [],
        allowedCommands := [], blockedCommands := [], blockedPatterns := [],
        maxOutputSize := 0 } "ls".data).1 rfl,
   ((C2_validateCommand_dispatch testEnv
      { enabled := true, useShellExecution := false, allowedExecutables := [],
        allowedCommands := [], blockedCommands := [], blockedPatterns := [],
        maxOutputSize := 0 } "ls".data).2.2.2 rfl rfl rfl).1⟩

set_option maxRecDepth 8192 in
/-- C3 counterexample: in secure mode with allowlist containing echo, the
command echo followed by a dollar-parenthesised whoami is denied, but the
denial message is the metacharacter message and does not contain the text
"dangerous shell constructs" claimed by the spec. -/
theorem C3_counterexample :
    validateCommand testEnv
      { enabled := true, useShellExecution := false,
        allowedExecutables := ["echo".data], allowedCommands := [],
        blockedCommands := [], blockedPatterns := [], maxOutputSize := 0 }
      "echo $(whoami)".data =
      some ("command contains shell metacharacters (not allowed in secure mode): echo $(whoami)".data) ∧
    goContains
      ("command contains shell metacharacters (not allowed in secure mode): echo $(whoami)".data)
      "dangerous shell constructs".data = false :=
  ⟨by rfl, by rfl⟩

set_option maxRecDepth 8192 in
/-- C3 amended: in secure mode the command echo followed by a
dollar-parenthesised whoami is denied at validation, with a message
containing "shell metacharacters" (not "dangerous shell constructs"), for
every environment and every conforming configuration. -/
theorem C3_echo_whoami_denied_at_validation (env : Env) (cfg : SecurityConfig)
    (hen : cfg.enabled = true) (hshell : cfg.useShellExecution = false)
    (hne : cfg.allowedExecutables ≠ []) :
    validateCommand env cfg "echo $(whoami)".data =
      some ("command contains shell metacharacters (not allowed in secure mode): echo $(whoami)".data) ∧
    goContains
      ("command contains shell metacharacters (not allowed in secure mode): echo $(whoami)".data)
      "shell metacharacters".data = true := by
  constructor
  · rw [validateCommand_secure_mode env cfg _ hen hshell hne]
    rw [validateExecutableCommand_meta_denies env cfg _ (by decide)]
    rfl
  · decide

/-- Witness for C3 amended, at the test environment and an allowlist
containing exactly echo. -/
theorem C3_echo_whoami_denied_at_validation_witness :
    validateCommand testEnv
      { enabled := true, useShellExecution := false,
        allowedExecutables := ["echo".data], allowedCommands := [],
        blockedCommands := [], blockedPatterns := [], maxOutputSize := 0 }
      "echo $(whoami)".data =
      some ("command contains shell metacharacters (not allowed in secure mode): echo $(whoami)".data) :=
  (C3_echo_whoami_denied_at_validation testEnv
    { enabled := true, useShellExecution := false,
      allowedExecutables := ["echo".data], allowedCommands := [],
      blockedCommands := [], blockedPatterns := [], maxOutputSize := 0 }
    rfl rfl (by decide)).1

/-- Finding an element through a filter that keeps everything the search
predicate accepts is the same as finding it in the whole list. -/
theorem find?_filter_of_imp {α : Type} (l : List α) (p q : α → Bool)
    (himp : ∀ x, p x = true → q x = true) :
    (l.filter q).find? p = l.find? p := by
  induction l with
  | nil => rfl
  | cons a l ih =>
    by_cases hq : q a = true
    · rw [List.filter_cons_of_pos hq]
      by_cases hp : p a = true
      · rw [List.find?_cons_of_pos _ hp, List.find?_cons_of_pos _ hp]
      · rw [List.find?_cons_of_neg _ hp, List.find?_cons_of_neg _ hp, ih]
    · have hp : ¬ p a = true := fun hpa => hq (himp a hpa)
      rw [List.filter_cons_of_neg (by simpa using hq), ih,
        List.find?_cons_of_neg _ hp]

/-- C4: legacy-mode validation denies on a matching blocked pattern; failing
that, denies on a blocked keyword occurring as a substring; failing that,
with a non-empty allowed-command list it allows exactly the commands whose
trimmed form starts with some allowed entry, and with an empty
allowed-command list it allows everything. -/
theorem C4_legacy_validation_semantics (env : Env) (cfg : SecurityConfig)
    (command : GoStr) :
    ((∃ p ∈ cfg.blockedPatterns, env.matchString p command = some true) →
      (validateLegacyCommand env cfg command).isSome = true) ∧
    ((∀ p ∈ cfg.blockedPatterns, env.matchString p command ≠ some true) →
      (∃ b ∈ cfg.blockedCommands, b <:+: command) →
      (validateLegacyCommand env cfg command).isSome = true) ∧
    ((∀ p ∈ cfg.blockedPatterns, env.matchString p command ≠ some true) →
      (∀ b ∈ cfg.blockedCommands, ¬ b <:+: command) →
      cfg.allowedCommands ≠ [] →
      (validateLegacyCommand env cfg command = none ↔
        ∃ a ∈ cfg.allowedCommands, a <+: trimSpace command)) ∧
    ((∀ p ∈ cfg.blockedPatterns, env.matchString p command ≠ some true) →
      (∀ b ∈ cfg.blockedCommands, ¬ b <:+: command) →
      cfg.allowedCommands = [] →
      validateLegacyCommand env cfg command = none) := by
  have hpatnone : (∀ p ∈ cfg.blockedPatterns, env.matchString p command ≠ some true) →
      cfg.blockedPatterns.find? (fun p => env.matchString p command == some true) = none := by
    intro hall
    rw [List.find?_eq_none]
    intro p hp hbeq
    exact hall p hp (by simpa using hbeq)
  have hblknone : (∀ b ∈ cfg.blockedCommands, ¬ b <:+: command) →
      cfg.blockedCommands.find? (fun b => goContains command b) = none := by
    intro hall
    rw [List.find?_eq_none]
    intro b hb hbeq
    exact hall b hb (goContains_iff.mp hbeq)
  refine ⟨?_, ?_, ?_, ?_⟩
  · rintro ⟨p, hp, hmatch⟩
    have hfind : (cfg.blockedPatterns.find?
        (fun p => env.matchString p command == some true)).isSome = true :=
      List.find?_isSome.mpr ⟨p, hp, by rw [hmatch]; rfl⟩
    obtain ⟨q, hq⟩ := Option.isSome_iff_exists.mp hfind
    unfold validateLegacyCommand
    rw [hq]
    rfl
  · rintro hpat ⟨b, hb, hsub⟩
    have hfind : (cfg.blockedCommands.find?
        (fun b => goContains command b)).isSome = true :=
      List.find?_isSome.mpr ⟨b, hb, goContains_iff.mpr hsub⟩
    obtain ⟨q, hq⟩ := Option.isSome_iff_exists.mp hfind
    unfold validateLegacyCommand
    rw [hpatnone hpat, hq]
    rfl
  · intro hpat hblk hne
    unfold validateLegacyCommand
    rw [hpatnone hpat, hblknone hblk,
      if_pos (by exact List.length_pos.mpr hne)]
    by_cases hany : cfg.allowedCommands.any
        (fun a => a.isPrefixOf (trimSpace command)) = true
    · rw [if_pos hany]
      simp only [true_iff]
      obtain ⟨a, ha, hpre⟩ := List.any_eq_true.mp hany
      exact ⟨a, ha, List.isPrefixOf_iff_prefix.mp hpre⟩
    · rw [if_neg hany]
      simp only [iff_false, reduceCtorEq, false_iff]
      rintro ⟨a, ha, hpre⟩
      exact hany (List.any_eq_true.mpr ⟨a, ha, List.isPrefixOf_iff_prefix.mpr hpre⟩)
  · intro hpat hblk hempty
    unfold validateLegacyCommand
    rw [hpatnone hpat, hblknone hblk, hempty]
    rfl

/-- Witness for C4: in legacy mode with no blocked patterns or keywords and
allowlist containing exactly the two-letter entry of l and s, the command of
l, s, space, dash and l is allowed. -/
theorem C4_legacy_validation_semantics_witness :
    validateLegacyCommand testEnv
      { enabled := true, useShellExecution := true, allowedExecutables := [],
        allowedCommands := ["ls".data], blockedCommands := [],
        blockedPatterns := [], maxOutputSize := 0 } "ls -l".data = none :=
  ((C4_legacy_validation_semantics testEnv
      { enabled := true, useShellExecution := true, allowedExecutables := [],
        allowedCommands := ["ls".data], blockedCommands := [],
        blockedPatterns := [], maxOutputSize := 0 } "ls -l".data).2.2.1
    (by simp) (by simp) (by decide)).mpr
    ⟨"ls".data, by decide, by decide⟩

/-- C10: a blocked-pattern entry on which the regex matcher reports an error
is silently skipped — removing every erroring entry from the configuration
changes nothing — and a command whose only would-be blocker errors is
allowed when no blocked keyword occurs and the allowed-command list is
empty. -/
theorem C10_malformed_pattern_skipped (env : Env) (cfg : SecurityConfig)
    (command : GoStr) :
    (validateLegacyCommand env cfg command =
      validateLegacyCommand env
        { cfg with blockedPatterns :=
            (cfg.blockedPatterns.filter (fun p => (env.matchString p command).isSome)) }
        command) ∧
    ((∀ p ∈ cfg.blockedPatterns, env.matchString p command = none) →
      (∀ b ∈ cfg.blockedCommands, ¬ b <:+: command) →
      cfg.allowedCommands = [] →
      validateLegacyCommand env cfg command = none) := by
  constructor
  · unfold validateLegacyCommand
    rw [find?_filter_of_imp cfg.blockedPatterns _ _
      (fun p hp => by
        have : env.matchString p command = some true := by simpa using hp
        rw [this]; rfl)]
  · intro hpat hblk hempty
    unfold validateLegacyCommand
    have h1 : cfg.blockedPatterns.find?
        (fun p => env.matchString p command == some true) = none := by
      rw [List.find?_eq_none]
      intro p hp
      rw [hpat p hp]
      simp
    have h2 : cfg.blockedCommands.find? (fun b => goContains command b) = none := by
      rw [List.find?_eq_none]
      intro b hb hbeq
      exact hblk b hb (goContains_iff.mp hbeq)
    rw [h1, h2, hempty]
    rfl

/-- Witness for C10: an environment whose regex matcher errors on every
pattern, a configuration whose only blocked pattern is a lone open
parenthesis, and a remove command: validation allows it. -/
theorem C10_malformed_pattern_skipped_witness :
    validateLegacyCommand
      { matchString := fun _ _ => none, lookPathOk := fun _ => false,
        absPath := fun _ => none }
      { enabled := true, useShellExecution := true, allowedExecutables := [],
        allowedCommands := [], blockedCommands := [],
        blockedPatterns := ["(".data], maxOutputSize := 0 } "rm -rf /".data = none :=
  (C10_malformed_pattern_skipped
      { matchString := fun _ _ => none, lookPathOk := fun _ => false,
        absPath := fun _ => none }
      { enabled := true, useShellExecution := true, allowedExecutables := [],
        allowedCommands := [], blockedCommands := [],
        blockedPatterns := ["(".data], maxOutputSize := 0 } "rm -rf /".data).2
    (by intro p hp; rfl) (by simp) rfl

/-- C9: every string containing a dangerous shell construct also contains a
shell metacharacter, and consequently the dangerous-construct check of
secure-mode whole-command validation is semantically dead: deleting it does
not change the validator on any input, so its denial reason is never
produced. -/
theorem C9_dangerous_check_subsumed :
    (∀ s : GoStr, containsDangerousShellConstructs s = true →
      containsShellMetacharacters s = true) ∧
    (∀ (env : Env) (cfg : SecurityConfig) (command : GoStr),
      validateExecutableCommand env cfg command =
        validateExecutableCommandNoDangerCheck env cfg command) := by
  constructor
  · exact fun s => dangerous_implies_meta
  · intro env cfg command
    simp only [validateExecutableCommand, validateExecutableCommandNoDangerCheck]
    by_cases h0 : trimSpace command = []
    · rw [if_pos h0, if_pos h0]
    · rw [if_neg h0, if_neg h0]
      by_cases hm : containsShellMetacharacters (trimSpace command) = true
      · rw [if_pos hm, if_pos hm]
      · have hd : ¬ containsDangerousShellConstructs (trimSpace command) = true :=
          fun hdc => hm (dangerous_implies_meta hdc)
        rw [if_neg hm, if_neg hm, if_neg hd]

/-- Witness for C9: the string of a, two ampersands and b contains a
metacharacter, and the validators with and without the dangerous-construct
check agree on a concrete secure-mode validation. -/
theorem C9_dangerous_check_subsumed_witness :
    containsShellMetacharacters "a&&b".data = true ∧
    validateExecutableCommand testEnv
      { enabled := true, useShellExecution := false,
        allowedExecutables := ["ls".data], allowedCommands := [],
        blockedCommands := [], blockedPatterns := [], maxOutputSize := 0 }
      "ls -l".data =
      validateExecutableCommandNoDangerCheck testEnv
        { enabled := true, useShellExecution := false,
          allowedExecutables := ["ls".data], allowedCommands := [],
          blockedCommands := [], blockedPatterns := [], maxOutputSize := 0 }
        "ls -l".data :=
  ⟨C9_dangerous_check_subsumed.1 "a&&b".data (by decide),
   C9_dangerous_check_subsumed.2 testEnv
     { enabled := true, useShellExecution := false,
       allowedExecutables := ["ls".data], allowedCommands := [],
       blockedCommands := [], blockedPatterns := [], maxOutputSize := 0 }
     "ls -l".data⟩

/-- C5: whenever secure-mode validation accepts a command, the execution
engine's parser accepts it too, so the execution-stage parsing-failure
branch is unreachable for policy-approved commands. -/
theorem C5_validation_subsumes_parsing (env : Env) (cfg : SecurityConfig)
    (command : GoStr)
    (hok : validateExecutableCommand env cfg command = none) :
    (parseCommand command).isOk = true := by
  simp only [validateExecutableCommand] at hok
  by_cases h0 : trimSpace command = []
  · rw [if_pos h0] at hok
    cases hok
  rw [if_neg h0] at hok
  by_cases hm : containsShellMetacharacters (trimSpace command) = true
  · rw [if_pos hm] at hok
    cases hok
  rw [if_neg hm] at hok
  by_cases hd : containsDangerousShellConstructs (trimSpace command) = true
  · rw [if_pos hd] at hok
    cases hok
  rw [if_neg hd] at hok
  cases hfld : fields (trimSpace command) with
  | nil =>
    rw [hfld] at hok
    cases hok
  | cons exe args =>
    have hexe_inf : exe <:+: trimSpace command :=
      mem_fields_substring (by rw [hfld]; exact List.mem_cons_self _ _)
    have hmexe : ¬ containsShellMetacharacters exe = true :=
      fun h => hm (meta_of_substring hexe_inf h)
    have hargs : args.find? containsDangerousShellConstructs = none := by
      rw [List.find?_eq_none]
      intro arg harg hdarg
      have harg_inf : arg <:+: trimSpace command :=
        mem_fields_substring (by rw [hfld]; exact List.mem_cons_of_mem _ harg)
      exact hd (dangerous_of_substring harg_inf hdarg)
    simp only [parseCommand]
    rw [if_neg h0, hfld]
    have hmexe' : containsShellMetacharacters exe = false :=
      Bool.eq_false_iff.mpr hmexe
    simp [hmexe', hargs, Except.isOk, Except.toBool]

/-- Witness for C5: with allowlist containing echo, the echo-hello command
passes validation and the parser accepts it. -/
theorem C5_validation_subsumes_parsing_witness :
    (parseCommand "echo hello".data).isOk = true :=
  C5_validation_subsumes_parsing testEnv
    { enabled := true, useShellExecution := false,
      allowedExecutables := ["echo".data], allowedCommands := [],
      blockedCommands := [], blockedPatterns := [], maxOutputSize := 0 }
    "echo hello".data (by rfl)

/-- The code's right-trim of newline bytes agrees with the structural
characterisation of removing every trailing newline byte. -/
theorem goTrimRightNL_eq_trimTrailingNewlines (bs : Bytes) :
    goTrimRightNL bs = trimTrailingNewlines bs := by
  induction bs with
  | nil => rfl
  | cons b rest ih =>
    unfold goTrimRightNL at ih ⊢
    unfold trimTrailingNewlines
    rw [List.reverse_cons, List.dropWhile_append]
    by_cases hemp : (rest.reverse.dropWhile (fun x => x == 10)).isEmpty = true
    · have hrest : trimTrailingNewlines rest = [] := by
        rw [← ih, List.isEmpty_iff.mp hemp]
        rfl
      rw [if_pos hemp, hrest]
      by_cases hb : b = 10
      · subst hb
        simp
      · have hbeq : (b == 10) = false := beq_eq_false_iff_ne.mpr hb
        simp [List.dropWhile, hbeq, hb]
    · have hrest : ¬ trimTrailingNewlines rest = [] := by
        rw [← ih]
        intro hcon
        rw [List.isEmpty_iff] at hemp
        exact hemp (by simpa using congrArg List.reverse hcon)
      rw [if_neg hemp, if_neg (by intro h; exact hrest h.1)]
      rw [List.reverse_append, ← ih]
      rfl

/-- C6: output-size enforcement is post-hoc and strict-greater.  The result
assembly that runs after the child has completed returns an error exactly
when the limit is positive and one accumulated stream is strictly longer
than it: a stream of exactly the limit passes, and a non-positive limit
disables the check, whatever the process outcome was. -/
theorem C6_output_size_enforcement (maxOutputSize : Int) (useBase64 : Bool)
    (stdoutBuf stderrBuf : Bytes) (runErr : Option ProcErr) (command : GoStr) :
    (finishSecureCommand maxOutputSize useBase64 stdoutBuf stderrBuf runErr
        command).isOk = false ↔
      (maxOutputSize > 0 ∧
        ((stdoutBuf.length : Int) > maxOutputSize ∨
          (stderrBuf.length : Int) > maxOutputSize)) := by
  unfold finishSecureCommand
  by_cases h1 : maxOutputSize > 0 ∧ (stdoutBuf.length : Int) > maxOutputSize
  · rw [if_pos h1]
    exact ⟨fun _ => ⟨h1.1, Or.inl h1.2⟩, fun _ => rfl⟩
  · rw [if_neg h1]
    by_cases h2 : maxOutputSize > 0 ∧ (stderrBuf.length : Int) > maxOutputSize
    · rw [if_pos h2]
      exact ⟨fun _ => ⟨h2.1, Or.inr h2.2⟩, fun _ => rfl⟩
    · rw [if_neg h2]
      constructor
      · intro hfalse
        exact absurd hfalse (by simp [Except.isOk, Except.toBool])
      · rintro ⟨hpos, hbig | hbig⟩
        · exact absurd ⟨hpos, hbig⟩ h1
        · exact absurd ⟨hpos, hbig⟩ h2

/-- C7: when the result assembly produces a result, no process error maps to
success with exit code zero; a process-exit error maps to error status with
the child's exit code; any other failure maps to error status with exit
code minus one. -/
theorem C7_result_assembly (maxOutputSize : Int) (useBase64 : Bool)
    (stdoutBuf stderrBuf : Bytes) (runErr : Option ProcErr) (command : GoStr)
    (r : ExecutionResult)
    (hr : finishSecureCommand maxOutputSize useBase64 stdoutBuf stderrBuf
      runErr command = .ok r) :
    (runErr = none → r.status = "success".data ∧ r.exitCode = 0) ∧
    (∀ code : Int, runErr = some (.exitErr code) →
      r.status = "error".data ∧ r.exitCode = code) ∧
    (runErr = some .otherErr → r.status = "error".data ∧ r.exitCode = -1) := by
  unfold finishSecureCommand at hr
  by_cases h1 : maxOutputSize > 0 ∧ (stdoutBuf.length : Int) > maxOutputSize
  · rw [if_pos h1] at hr
    cases hr
  rw [if_neg h1] at hr
  by_cases h2 : maxOutputSize > 0 ∧ (stderrBuf.length : Int) > maxOutputSize
  · rw [if_pos h2] at hr
    cases hr
  rw [if_neg h2] at hr
  refine ⟨?_, ?_, ?_⟩
  · rintro rfl
    cases hr
    exact ⟨rfl, rfl⟩
  · rintro code rfl
    cases hr
    exact ⟨rfl, rfl⟩
  · rintro rfl
    cases hr
    exact ⟨rfl, rfl⟩

/-- Witness for C7: a child exiting with code two yields an error-status
result carrying exit code two. -/
theorem C7_result_assembly_witness :
    ({ status := "error".data, exitCode := 2, stdout := [], stderr := [],
       command := "x".data } : ExecutionResult).status = "error".data ∧
    ({ status := "error".data, exitCode := 2, stdout := [], stderr := [],
       command := "x".data } : ExecutionResult).exitCode = 2 :=
  (C7_result_assembly 0 false [] [] (some (.exitErr 2)) "x".data
    { status := "error".data, exitCode := 2, stdout := [], stderr := [],
      command := "x".data } (by rfl)).2.1 2 rfl

/-- C8 counterexample: a stdout buffer of the byte of a followed by two
newline bytes is rendered, in text mode, with both trailing newlines
removed, not just a single one as the claim states: the code yields the
one-byte stream while the claim predicts a two-byte stream. -/
theorem C8_counterexample :
    finishSecureCommand 0 false [97, 10, 10] [] none "x".data =
      .ok { status := "success".data, exitCode := 0, stdout := [97],
            stderr := [], command := "x".data } ∧
    trimSingleTrailingNewline [97, 10, 10] = [97, 10] ∧
    ([97] : Bytes) ≠ [97, 10] :=
  ⟨by rfl, by rfl, by decide⟩

/-- C8 amended: when the result assembly produces a result, text mode
renders each stream with every trailing newline byte removed, and base64
mode encodes the raw untrimmed bytes of each stream; the choice is
all-or-nothing across both streams. -/
theorem C8_stream_rendering (maxOutputSize : Int) (useBase64 : Bool)
    (stdoutBuf stderrBuf : Bytes) (runErr : Option ProcErr) (command : GoStr)
    (r : ExecutionResult)
    (hr : finishSecureCommand maxOutputSize useBase64 stdoutBuf stderrBuf
      runErr command = .ok r) :
    (useBase64 = false → r.stdout = trimTrailingNewlines stdoutBuf ∧
      r.stderr = trimTrailingNewlines stderrBuf) ∧
    (useBase64 = true → r.stdout = base64Encode stdoutBuf ∧
      r.stderr = base64Encode stderrBuf) := by
  unfold finishSecureCommand at hr
  by_cases h1 : maxOutputSize > 0 ∧ (stdoutBuf.length : Int) > maxOutputSize
  · rw [if_pos h1] at hr
    cases hr
  rw [if_neg h1] at hr
  by_cases h2 : maxOutputSize > 0 ∧ (stderrBuf.length : Int) > maxOutputSize
  · rw [if_pos h2] at hr
    cases hr
  rw [if_neg h2] at hr
  constructor
  · rintro rfl
    cases hr
    exact ⟨(goTrimRightNL_eq_trimTrailingNewlines stdoutBuf).symm ▸ rfl,
      (goTrimRightNL_eq_trimTrailingNewlines stderrBuf).symm ▸ rfl⟩
  · rintro rfl
    cases hr
    exact ⟨rfl, rfl⟩

/-- Witness for C8 amended: text mode at a concrete buffer with two trailing
newlines, exercised through the amended theorem. -/
theorem C8_stream_rendering_witness :
    ([97] : Bytes) = trimTrailingNewlines [97, 10, 10] ∧
    ([] : Bytes) = trimTrailingNewlines [] :=
  (C8_stream_rendering 0 false [97, 10, 10] [] none "x".data
    { status := "success".data, exitCode := 0, stdout := [97], stderr := [],
      command := "x".data } (by rfl)).1 rfl

end MCPShell
